import Mathlib

/-!
Verification of the ICP deterministic AI gateway

A shallow embedding of the gateway's core (`src/utils.ts`, the Durable
Object cache coordinator, and the worker front door) together with
theorems settling the specification claims.

Conventions of the embedding:
* JavaScript numbers appearing in request bodies are modelled as `Rat`
  (no `NaN`); timestamps (`Date.now()`) and integer-valued request
  fields are modelled as `Int`.
* JavaScript's `??` (nullish coalescing) on an optional value is
  `Option.getD`; JavaScript's `||` applies a falsiness test first and
  is modelled by the explicit `jsOr*` helpers below.
* Fallible operations return `Except String`.
* The Durable Object's execution is modelled as a step machine whose
  atomic segments are the synchronous stretches between the points
  where the platform can deliver new events (the upstream `fetch` is
  the suspension point; Durable Object storage operations are covered
  by the platform's input gates, so no other request interleaves with
  them).
-/

/-! ## JavaScript semantics helpers -/

/-- JavaScript `a || d` for a possibly-undefined string
(`undefined` and `""` are falsy). -/
def jsOrStr (a : Option String) (d : String) : String :=
  match a with
  | none => d
  | some s => if s = "" then d else s

/-- JavaScript `a || d` for a possibly-undefined integer
(`undefined` and `0` are falsy). -/
def jsOrInt (a : Option Int) (d : Int) : Int :=
  match a with
  | none => d
  | some n => if n = 0 then d else n

/-- JavaScript `a || d` for a number that is always defined
(`0` is falsy). -/
def jsOrNat (a : Nat) (d : Nat) : Nat :=
  if a = 0 then d else a

/-! ## SHA-256 (FIPS 180-4), over byte lists

`crypto.subtle.digest('SHA-256', ...)` in the source is the real
SHA-256; we embed it in full. All words are `Nat` reduced mod `2^32`.
-/

/-- Truncate to a 32-bit word. -/
def w32 (n : Nat) : Nat := n % 4294967296

/-- Addition of 32-bit words, modular. -/
def wadd (a b : Nat) : Nat := w32 (a + b)

/-- Rotate a 32-bit word right by `n` bits. -/
def rotr (n x : Nat) : Nat := w32 ((x >>> n) ||| (x <<< (32 - n)))

/-- Bitwise complement of a 32-bit word. -/
def wnot (x : Nat) : Nat := x ^^^ 4294967295

def chF (x y z : Nat) : Nat := (x &&& y) ^^^ (wnot x &&& z)

def majF (x y z : Nat) : Nat := (x &&& y) ^^^ (x &&& z) ^^^ (y &&& z)

def bigSigma0 (x : Nat) : Nat := rotr 2 x ^^^ rotr 13 x ^^^ rotr 22 x

def bigSigma1 (x : Nat) : Nat := rotr 6 x ^^^ rotr 11 x ^^^ rotr 25 x

def smallSigma0 (x : Nat) : Nat := rotr 7 x ^^^ rotr 18 x ^^^ (x >>> 3)

def smallSigma1 (x : Nat) : Nat := rotr 17 x ^^^ rotr 19 x ^^^ (x >>> 10)

/-- Round constants of SHA-256 (FIPS 180-4 section 4.2.2), in order,
as decimal word values. -/
def sha256K : List Nat :=
  [1116352408, 1899447441, 3049323471, 3921009573, 961987163,
   1508970993, 2453635748, 2870763221, 3624381080, 310598401,
   607225278, 1426881987, 1925078388, 2162078206, 2614888103,
   3248222580, 3835390401, 4022224774, 264347078, 604807628,
   770255983, 1249150122, 1555081692, 1996064986, 2554220882,
   2821834349, 2952996808, 3210313671, 3336571891, 3584528711,
   113926993, 338241895, 666307205, 773529912, 1294757372,
   1396182291, 1695183700, 1986661051, 2177026350, 2456956037,
   2730485921, 2820302411, 3259730800, 3345764771, 3516065817,
   3600352804, 4094571909, 275423344, 430227734, 506948616,
   659060556, 883997877, 958139571, 1322822218, 1537002063,
   1747873779, 1955562222, 2024104815, 2227730452, 2361852424,
   2428436474, 2756734187, 3204031479, 3329325298]

/-- Working state of the compression function. -/
structure H8 where
  a : Nat
  b : Nat
  c : Nat
  d : Nat
  e : Nat
  f : Nat
  g : Nat
  h : Nat
deriving Repr, DecidableEq

def sha256Init : H8 :=
  ⟨1779033703, 3144134277, 1013904242, 2773480762,
   1359893119, 2600822924, 528734635, 1541459225⟩

/-- Big-endian bytes of a 64-bit length field. -/
def be64 (n : Nat) : List Nat :=
  [(n >>> 56) &&& 255, (n >>> 48) &&& 255, (n >>> 40) &&& 255, (n >>> 32) &&& 255,
   (n >>> 24) &&& 255, (n >>> 16) &&& 255, (n >>> 8) &&& 255, n &&& 255]

/-- Big-endian bytes of a 32-bit word. -/
def be32 (n : Nat) : List Nat :=
  [(n >>> 24) &&& 255, (n >>> 16) &&& 255, (n >>> 8) &&& 255, n &&& 255]

/-- SHA-256 padding: `0x80`, zeros to 56 mod 64, then the 64-bit bit length. -/
def sha256Pad (msg : List Nat) : List Nat :=
  let L := msg.length
  let k := (119 - (L % 64)) % 64
  msg ++ [0x80] ++ List.replicate k 0 ++ be64 (8 * L)

/-- Group a byte list into big-endian 32-bit words. -/
def toWords : List Nat → List Nat
  | b0 :: b1 :: b2 :: b3 :: rest =>
      ((b0 <<< 24) ||| (b1 <<< 16) ||| (b2 <<< 8) ||| b3) :: toWords rest
  | _ => []

/-- Split a byte list into 64-byte blocks (structural recursion on a
fuel bound so that the kernel can evaluate it). -/
def toBlocksAux : Nat → List Nat → List (List Nat)
  | 0, _ => []
  | _, [] => []
  | fuel + 1, x :: xs => (x :: xs).take 64 :: toBlocksAux fuel ((x :: xs).drop 64)

/-- Split a byte list into 64-byte blocks. -/
def toBlocks (l : List Nat) : List (List Nat) :=
  toBlocksAux l.length l

/-- One step of message-schedule extension:
`W[t] = σ1(W[t-2]) + W[t-7] + σ0(W[t-15]) + W[t-16]`. -/
def scheduleStep (w : List Nat) : List Nat :=
  w ++ [wadd (wadd (smallSigma1 (w.getD (w.length - 2) 0)) (w.getD (w.length - 7) 0))
             (wadd (smallSigma0 (w.getD (w.length - 15) 0)) (w.getD (w.length - 16) 0))]

/-- Extend the 16 block words to the 64 schedule words. -/
def fullSchedule (w16 : List Nat) : List Nat :=
  (List.range 48).foldl (fun w _ => scheduleStep w) w16

/-- One round of the SHA-256 compression function. -/
def compressRound (s : H8) (k w : Nat) : H8 :=
  let T1 := wadd s.h (wadd (bigSigma1 s.e) (wadd (chF s.e s.f s.g) (wadd k w)))
  let T2 := wadd (bigSigma0 s.a) (majF s.a s.b s.c)
  ⟨wadd T1 T2, s.a, s.b, s.c, wadd s.d T1, s.e, s.f, s.g⟩

/-- Compress one 64-byte block into the running hash state. -/
def compressBlock (s : H8) (block : List Nat) : H8 :=
  let w := fullSchedule (toWords block)
  let t := (List.zip sha256K w).foldl (fun st kw => compressRound st kw.1 kw.2) s
  ⟨wadd s.a t.a, wadd s.b t.b, wadd s.c t.c, wadd s.d t.d,
   wadd s.e t.e, wadd s.f t.f, wadd s.g t.g, wadd s.h t.h⟩

/-- SHA-256 of a byte list, as 32 bytes. -/
def sha256Bytes (msg : List Nat) : List Nat :=
  let s := (toBlocks (sha256Pad msg)).foldl compressBlock sha256Init
  be32 s.a ++ be32 s.b ++ be32 s.c ++ be32 s.d ++ be32 s.e ++ be32 s.f ++ be32 s.g ++ be32 s.h

/-- The lowercase hex digit character for a value below 16. -/
def hexDigitChar (n : Nat) : Char :=
  if n < 10 then Char.ofNat (48 + n) else Char.ofNat (87 + n)

/-- A byte as two lowercase hex characters
(`b.toString(16).padStart(2, '0')`). -/
def byteToHex (b : Nat) : List Char :=
  [hexDigitChar (b >>> 4), hexDigitChar (b &&& 15)]

/-- Hex-encode a byte list. -/
def toHexString (bytes : List Nat) : String :=
  ⟨(bytes.map byteToHex).flatten⟩

/-- UTF-8 encoding of one character (`TextEncoder`). -/
def utf8EncodeChar (c : Char) : List Nat :=
  let n := c.toNat
  if n < 0x80 then [n]
  else if n < 0x800 then
    [0xC0 ||| (n >>> 6), 0x80 ||| (n &&& 0x3F)]
  else if n < 0x10000 then
    [0xE0 ||| (n >>> 12), 0x80 ||| ((n >>> 6) &&& 0x3F), 0x80 ||| (n &&& 0x3F)]
  else
    [0xF0 ||| (n >>> 18), 0x80 ||| ((n >>> 12) &&& 0x3F),
     0x80 ||| ((n >>> 6) &&& 0x3F), 0x80 ||| (n &&& 0x3F)]

/-- UTF-8 encoding of a string (`TextEncoder.encode`). -/
def utf8Encode (s : String) : List Nat :=
  (s.data.map utf8EncodeChar).flatten

/-- SHA-256 of a string's UTF-8 bytes, hex-encoded. -/
def sha256Hex (s : String) : String :=
  toHexString (sha256Bytes (utf8Encode s))

/-- HMAC-SHA256 (RFC 2104) with block size 64 over byte lists. -/
def hmacSha256 (key msg : List Nat) : List Nat :=
  let k0 := if 64 < key.length then sha256Bytes key else key
  let kpad := k0 ++ List.replicate (64 - k0.length) 0
  let ipadKey := kpad.map (fun b => b ^^^ 0x36)
  let opadKey := kpad.map (fun b => b ^^^ 0x5c)
  sha256Bytes (opadKey ++ sha256Bytes (ipadKey ++ msg))

/-! ## Data model (`src/types.ts`) -/

/-- Structure `GatewayRequest`: the caller-supplied request, as received by the
coordinator after front-door validation. JS numbers in these fields are
integer-valued in the validated domain and are modelled as `Int`. -/
structure GatewayRequest where
  model : String
  prompt : String
  seed : Int
  temperature : Option Int
  max_tokens : Option Int
  system_prompt : Option String
deriving Repr, DecidableEq

/-- Structure `CachedEntry`: the persisted per-fingerprint cache record. -/
structure CachedEntry where
  content : String
  model : String
  seed : Int
  request_hash : String
  cached_at : Int
  last_accessed : Int
  hit_count : Nat
deriving Repr, DecidableEq

/-- Structure `Env`: worker environment bindings. -/
structure Env where
  OPENAI_API_KEY : String
  SIGNING_SECRET : String
  CACHE_RETENTION_DAYS : Option String
deriving Repr, DecidableEq

/-! ## `generateCacheKey` (`src/utils.ts` lines 10-27) -/

/-- The deterministic pre-hash string
`` `${model}:${prompt}:${systemPrompt}:${temperature}:${seed}:${maxTokens}` ``
after `??`-substitution of the optional fields. -/
def keyString (req : GatewayRequest) : String :=
  let temperature := req.temperature.getD 0
  let maxTokens := req.max_tokens.getD 150
  let systemPrompt := req.system_prompt.getD ""
  req.model ++ ":" ++ req.prompt ++ ":" ++ systemPrompt ++ ":" ++
    toString temperature ++ ":" ++ toString req.seed ++ ":" ++ toString maxTokens

/-- Function `generateCacheKey`: SHA-256 of the pre-hash string, hex-encoded. -/
def generateCacheKey (req : GatewayRequest) : String :=
  sha256Hex (keyString req)

/-- Modelled from the spec (§8 "Fingerprint stability"): a request after
default-substitution of its optional fields — the ordered tuple
(model, prompt, systemPrompt, temperature, seed, maxTokens) with
`systemPrompt → ""`, `temperature → 0`, `maxTokens → 150`. Used only to
compare the spec's wording with the source's `generateCacheKey`. -/
structure NormalizedRequest where
  model : String
  prompt : String
  systemPrompt : String
  temperature : Int
  seed : Int
  maxTokens : Int
deriving Repr, DecidableEq

/-- Default-substitution of the optional fields, as worded in the spec. -/
def defaultSubst (req : GatewayRequest) : NormalizedRequest :=
  ⟨req.model, req.prompt, req.system_prompt.getD "", req.temperature.getD 0,
   req.seed, req.max_tokens.getD 150⟩

/-! ## `generateSignature` (`src/utils.ts` lines 32-59) -/

/-- Model of `crypto.subtle.importKey` for raw HMAC keys:
WebCrypto throws a `DataError` when the raw HMAC key is empty. -/
def importHmacKey (keyData : List Nat) : Except String (List Nat) :=
  if keyData.length = 0 then Except.error "DataError: HMAC key data must not be empty"
  else Except.ok keyData

/-- Function `generateSignature(requestHash, content, secret)`: hex-encoded
HMAC-SHA256 keyed by `secret` over `` `${requestHash}:${content}` ``. -/
def generateSignature (requestHash content secret : String) : Except String String := do
  let keyData := utf8Encode secret
  let key ← importHmacKey keyData
  let signatureData := utf8Encode (requestHash ++ ":" ++ content)
  let signature := hmacSha256 key signatureData
  pure (toHexString signature)

/-! ## `validateRequest` (`src/utils.ts` lines 64-83)

The front door parses an untyped JSON body, so the fields are modelled
as optional JSON values. -/

/-- A JSON scalar value as it can appear in a request body field. -/
inductive JVal where
  | jstr (s : String)
  | jnum (q : Rat)
  | jbool (b : Bool)
deriving Repr, DecidableEq

/-- JavaScript truthiness of a `JVal`. -/
def truthy : JVal → Bool
  | .jstr s => s ≠ ""
  | .jnum q => q ≠ 0
  | .jbool b => b

/-- Truthiness of a possibly-absent field (`undefined` is falsy). -/
def truthyOpt : Option JVal → Bool
  | none => false
  | some v => truthy v

/-- Test `typeof v === 'string'` for a possibly-absent field. -/
def isStringVal : Option JVal → Bool
  | some (.jstr _) => true
  | _ => false

/-- Test `typeof v === 'number'` for a possibly-absent field. -/
def isNumberVal : Option JVal → Bool
  | some (.jnum _) => true
  | _ => false

/-- The raw, unvalidated request body. -/
structure RawRequest where
  model : Option JVal
  prompt : Option JVal
  seed : Option JVal
  temperature : Option JVal
  max_tokens : Option JVal
  system_prompt : Option JVal
deriving Repr, DecidableEq

/-- Result record of `validateRequest`. -/
structure ValidationResult where
  valid : Bool
  error : Option String
deriving Repr, DecidableEq

/-- Function `validateRequest` from `src/utils.ts`. -/
def validateRequest (req : RawRequest) : ValidationResult :=
  if !truthyOpt req.model || !isStringVal req.model then
    ⟨false, some "Missing or invalid model"⟩
  else if !truthyOpt req.prompt || !isStringVal req.prompt then
    ⟨false, some "Missing or invalid prompt"⟩
  else if !isNumberVal req.seed then
    ⟨false, some "Missing or invalid seed (must be a number)"⟩
  else
    let temperature := req.temperature.getD (JVal.jnum 0)
    if temperature ≠ JVal.jnum 0 then
      ⟨false, some "Temperature must be 0 for deterministic results"⟩
    else ⟨true, none⟩

/-! ## Worker front door, `/generate` branch (`src/index.ts`) -/

/-- Observable actions of the worker `/generate` handler, in program
order. `derivedFingerprint` marks the `generateCacheKey` call used for
routing; `forwardedToCoordinator` marks the forward to the Durable
Object (which is the only path to an upstream OpenAI call). -/
inductive WEvent where
  | derivedFingerprint
  | forwardedToCoordinator
deriving Repr, DecidableEq

/-- Result of the worker `/generate` branch: HTTP status, the `code`
field of an error body (if any), and the actions performed. -/
structure WorkerOutcome where
  status : Nat
  code : Option String
  events : List WEvent
deriving Repr, DecidableEq

/-- The worker `/generate` branch: validate, then derive the routing
fingerprint and forward to the coordinator. `coordinatorResult` stands
for the Durable Object's reply (`ok` body or failure). -/
def workerGenerate (req : RawRequest) (coordinatorResult : Except String String) :
    WorkerOutcome :=
  let validation := validateRequest req
  if validation.valid = false then
    { status := 400, code := some "VALIDATION_ERROR", events := [] }
  else
    match coordinatorResult with
    | .ok _ => { status := 200, code := none,
                 events := [.derivedFingerprint, .forwardedToCoordinator] }
    | .error _ => { status := 500, code := some "WORKER_ERROR",
                    events := [.derivedFingerprint, .forwardedToCoordinator] }

/-! ## Retention sweep (`cleanupExpiredEntries`, `src/utils.ts` lines 288-306) -/

/-- Longest digit run at the front of a character list. -/
def leadingDigits (cs : List Char) : List Char :=
  cs.takeWhile Char.isDigit

/-- Digit characters to a natural number. -/
def digitsToNat (ds : List Char) : Nat :=
  ds.foldl (fun a c => a * 10 + (c.toNat - 48)) 0

/-- Digit-run parse helper for `parseInt`: `none` is JavaScript `NaN`. -/
def parseDigitRun (cs : List Char) : Option Nat :=
  match leadingDigits cs with
  | [] => none
  | ds => some (digitsToNat ds)

/-- JavaScript `parseInt(s, 10)`: skip whitespace, optional sign,
longest digit run; `none` models `NaN`. -/
def jsParseInt (s : String) : Option Int :=
  let cs := s.data.dropWhile (fun c => c = ' ' || c = '\t' || c = '\n' || c = '\r')
  match cs with
  | '-' :: rest => (parseDigitRun rest).map (fun n => -(n : Int))
  | '+' :: rest => (parseDigitRun rest).map (fun n => (n : Int))
  | _ => (parseDigitRun cs).map (fun n => (n : Int))

/-- Computation `parseInt(env.CACHE_RETENTION_DAYS || '90', 10)`. -/
def retentionDaysOf (env : Env) : Option Int :=
  jsParseInt (jsOrStr env.CACHE_RETENTION_DAYS "90")

/-- Cutoff `Date.now() - retentionDays * 24 * 60 * 60 * 1000`; `none` models a
`NaN` cutoff (NaN retention days). -/
def cutoffOf (env : Env) (now : Int) : Option Int :=
  (retentionDaysOf env).map (fun d => now - d * (24 * 60 * 60 * 1000))

/-- Test `entry.cached_at < cutoffTime` with JavaScript `NaN` comparison
semantics: any comparison against `NaN` is false. -/
def expiredAt (cutoff : Option Int) (e : CachedEntry) : Bool :=
  match cutoff with
  | none => false
  | some c => e.cached_at < c

/-- The deletion loop of `cleanupExpiredEntries`: returns the number of
deleted entries and the remaining storage. -/
def sweepList (cutoff : Option Int) :
    List (String × CachedEntry) → Nat × List (String × CachedEntry)
  | [] => (0, [])
  | (k, e) :: rest =>
      let r := sweepList cutoff rest
      if expiredAt cutoff e then (r.1 + 1, r.2) else (r.1, (k, e) :: r.2)

/-- Function `cleanupExpiredEntries`: sweep the whole storage against the
retention cutoff. -/
def cleanupExpiredEntries (env : Env) (now : Int) (storage : List (String × CachedEntry)) :
    Nat × List (String × CachedEntry) :=
  sweepList (cutoffOf env now) storage

/-! ## The `/cleanup` HTTP branches -/

/-- An HTTP response whose JSON object body is a field list. -/
structure HttpResponse where
  status : Nat
  body : List (String × JVal)
deriving Repr, DecidableEq

/-- The Durable Object `/cleanup` branch (`durable-object.ts` lines
153-166): run the sweep, answer `200 {deleted, status: "ok"}`. The
second component is the post-sweep storage. -/
def doHandleCleanup (env : Env) (now : Int) (storage : List (String × CachedEntry)) :
    HttpResponse × List (String × CachedEntry) :=
  let r := cleanupExpiredEntries env now storage
  (⟨200, [("deleted", .jnum (r.1 : Rat)), ("status", .jstr "ok")]⟩, r.2)

/-- The worker `/cleanup` branch (`src/index.ts` lines 128-154): a stub
that performs no sweep. The `Nat` component counts the retention sweeps
it triggers — the branch body contains none. -/
def workerHandleCleanup : HttpResponse × Nat :=
  (⟨200, [("status", .jstr "ok"),
          ("message", .jstr "Cleanup endpoint - implement cron trigger for automatic cleanup")]⟩,
   0)

/-! ## `callOpenAI` request construction (`durable-object.ts` lines 245-258) -/

inductive ChatRole where
  | system
  | user
  | assistant
deriving Repr, DecidableEq

structure ChatMessage where
  role : ChatRole
  content : String
deriving Repr, DecidableEq

structure OpenAIRequest where
  model : String
  messages : List ChatMessage
  temperature : Int
  seed : Int
  max_tokens : Option Int
deriving Repr, DecidableEq

/-- The upstream request body built by `callOpenAI`: note the `||`
defaults (`system_prompt || 'You are a helpful assistant.'`,
`max_tokens || 150`) and the hard-wired `temperature: 0`. -/
def openAIRequestOf (req : GatewayRequest) : OpenAIRequest :=
  let systemPrompt := jsOrStr req.system_prompt "You are a helpful assistant."
  let maxTokens := jsOrInt req.max_tokens 150
  { model := req.model
  , messages := [⟨.system, systemPrompt⟩, ⟨.user, req.prompt⟩]
  , temperature := 0
  , seed := req.seed
  , max_tokens := some maxTokens }

/-- The normalized `systemPrompt` bound into the fingerprint by
`generateCacheKey` (the `?? ''` substitution in `src/utils.ts`). -/
def normSystemPrompt (req : GatewayRequest) : String :=
  req.system_prompt.getD ""

/-! ## The Durable Object coordinator as a step machine

`getOrGenerateResponse` / `generateAndCache` (`durable-object.ts` lines
175-240). One machine instance models one Durable Object. Its atomic
segments:

* `arriveStep i now` — a `/generate` request by caller `i` runs the
  synchronous segment up to either completion (cache hit), attaching to
  the in-flight promise, or registering a `PendingGeneration` and
  issuing the upstream call.
* `resolveStep i now outcome` — caller `i`'s upstream call returns
  with `outcome`; the continuation stores the entry (on success),
  settles the promise for every attached waiter, and removes the
  pending entry (the `finally` block), all before any new event is
  delivered.
-/

/-- Association-list read (`storage.get` / `pendingRequests.get`). -/
def alistGet {α : Type} (k : String) : List (String × α) → Option α
  | [] => none
  | (k', v) :: rest => if k' = k then some v else alistGet k rest

/-- Association-list write (`storage.put` / `pendingRequests.set`):
overwrites the binding if present. -/
def alistPut {α : Type} (k : String) (v : α) : List (String × α) → List (String × α)
  | [] => [(k, v)]
  | (k', v') :: rest => if k' = k then (k, v) :: rest else (k', v') :: alistPut k v rest

/-- Association-list delete (`pendingRequests.delete`). -/
def alistRemove {α : Type} (k : String) : List (String × α) → List (String × α)
  | [] => []
  | (k', v') :: rest => if k' = k then alistRemove k rest else (k', v') :: alistRemove k rest

deriving instance DecidableEq for Except

/-- Where one caller's `getOrGenerateResponse` invocation stands. -/
inductive Phase where
  /-- The request has not been delivered yet. -/
  | ready (req : GatewayRequest)
  /-- This caller registered the `PendingGeneration` for `key` and its
  upstream call is in flight. -/
  | awaitingUpstream (key : String) (req : GatewayRequest)
  /-- This caller attached to the in-flight promise for `key`. -/
  | waiting (key : String)
  /-- The invocation finished: either a `CachedEntry` together with the
  `cached` flag, or a propagated error. -/
  | done (result : Except String (CachedEntry × Bool))
deriving Repr, DecidableEq

/-- The coordinator state: persisted storage, the in-process
`pendingRequests` table (key to initiating caller), the callers, and a
count of upstream (OpenAI) invocations issued. -/
structure DOState where
  storage : List (String × CachedEntry)
  pending : List (String × Nat)
  callers : List Phase
  upstreamCalls : Nat
deriving Repr, DecidableEq

/-- The cache-hit statistics update:
`last_accessed = Date.now(); hit_count = (hit_count || 0) + 1`. -/
def refreshEntry (e : CachedEntry) (now : Int) : CachedEntry :=
  { e with last_accessed := now, hit_count := jsOrNat e.hit_count 0 + 1 }

/-- The `CachedEntry` literal built by `generateAndCache`. -/
def newEntry (req : GatewayRequest) (key content : String) (now : Int) : CachedEntry :=
  { content := content
  , model := req.model
  , seed := req.seed
  , request_hash := key
  , cached_at := now
  , last_accessed := now
  , hit_count := 0 }

/-- Delivery of caller `i`'s request: the synchronous part of
`getOrGenerateResponse` (cache check, pending check, or registration
plus upstream dispatch). `none` when `i` is not a deliverable caller. -/
def arriveStep (S : DOState) (i : Nat) (now : Int) : Option DOState :=
  match S.callers[i]? with
  | some (.ready req) =>
    let key := generateCacheKey req
    match alistGet key S.storage with
    | some e =>
        let e' := refreshEntry e now
        some { S with storage := alistPut key e' S.storage
                    , callers := S.callers.set i (.done (.ok (e', true))) }
    | none =>
        match alistGet key S.pending with
        | some _ => some { S with callers := S.callers.set i (.waiting key) }
        | none => some { S with pending := alistPut key i S.pending
                              , callers := S.callers.set i (.awaitingUpstream key req)
                              , upstreamCalls := S.upstreamCalls + 1 }
  | _ => none

/-- Settling of the promise as observed by one attached waiter. -/
def resolveWaiter (key : String) (res : Except String (CachedEntry × Bool)) :
    Phase → Phase
  | .waiting k => if k = key then .done res else .waiting k
  | p => p

/-- Return of caller `i`'s upstream call: the continuation of
`generateAndCache` (store on success), the settling of the promise for
the initiator and every waiter, and the `finally` removal of the
pending entry. `none` when `i` has no upstream call in flight. -/
def resolveStep (S : DOState) (i : Nat) (now : Int) (outcome : Except String String) :
    Option DOState :=
  match S.callers[i]? with
  | some (.awaitingUpstream key req) =>
    match outcome with
    | .ok content =>
        let e := newEntry req key content now
        some { storage := alistPut key e S.storage
             , pending := alistRemove key S.pending
             , callers := (S.callers.set i (.done (.ok (e, false)))).map
                 (resolveWaiter key (.ok (e, true)))
             , upstreamCalls := S.upstreamCalls }
    | .error err =>
        some { storage := S.storage
             , pending := alistRemove key S.pending
             , callers := (S.callers.set i (.done (.error err))).map
                 (resolveWaiter key (.error err))
             , upstreamCalls := S.upstreamCalls }
  | _ => none

/-- An event the platform can deliver to the Durable Object. -/
inductive Ev where
  | arrive (i : Nat) (now : Int)
  | resolve (i : Nat) (now : Int) (outcome : Except String String)
deriving Repr, DecidableEq

/-- One event delivery. -/
def step (S : DOState) : Ev → Option DOState
  | .arrive i now => arriveStep S i now
  | .resolve i now outcome => resolveStep S i now outcome

/-- A whole schedule of event deliveries; `none` when some event is not
deliverable in its state. -/
def run (S : DOState) : List Ev → Option DOState
  | [] => some S
  | ev :: evs =>
    match step S ev with
    | some S' => run S' evs
    | none => none

/-- The caller finished with an `ok` result. -/
def isDoneOkB : Phase → Bool
  | .done (.ok _) => true
  | _ => false

/-- The caller finished with a propagated error. -/
def isDoneErrB : Phase → Bool
  | .done (.error _) => true
  | _ => false

/-- The caller finished with `cached = false` (it was the initiator of
the fresh generation). -/
def isDoneFalseB : Phase → Bool
  | .done (.ok (_, false)) => true
  | _ => false

/-- The caller has an upstream call in flight for `k`. -/
def isAwaitingB (k : String) : Phase → Bool
  | .awaitingUpstream k' _ => decide (k' = k)
  | _ => false

/-- The `content` the caller received, when it finished successfully. -/
def contentOf : Phase → Option String
  | .done (.ok (e, _)) => some e.content
  | _ => none

/-! ## Association-list lemmas -/

theorem alistGet_put_self {α : Type} (k : String) (v : α) (l : List (String × α)) :
    alistGet k (alistPut k v l) = some v := by
  induction l with
  | nil => simp [alistGet, alistPut]
  | cons hd tl ih =>
    obtain ⟨k', v'⟩ := hd
    by_cases h : k' = k
    · simp [alistPut, alistGet, h]
    · simp [alistPut, alistGet, h, ih]

theorem alistGet_remove_self {α : Type} (k : String) (l : List (String × α)) :
    alistGet k (alistRemove k l) = none := by
  induction l with
  | nil => simp [alistGet, alistRemove]
  | cons hd tl ih =>
    obtain ⟨k', v'⟩ := hd
    by_cases h : k' = k
    · simp [alistRemove, h, ih]
    · simp [alistRemove, alistGet, h, ih]

theorem resolveWaiter_done (k : String) (res r : Except String (CachedEntry × Bool)) :
    resolveWaiter k res (.done r) = .done r := rfl

theorem resolveWaiter_ready (k : String) (res : Except String (CachedEntry × Bool))
    (req : GatewayRequest) : resolveWaiter k res (.ready req) = .ready req := rfl

theorem resolveWaiter_awaiting (k : String) (res : Except String (CachedEntry × Bool))
    (k' : String) (req : GatewayRequest) :
    resolveWaiter k res (.awaitingUpstream k' req) = .awaitingUpstream k' req := rfl

theorem jsOrNat_zero (a : Nat) : jsOrNat a 0 = a := by
  unfold jsOrNat; split <;> omega

/-! ## Step-machine structural lemmas -/

theorem arriveStep_length {S : DOState} {i : Nat} {now : Int} {S' : DOState}
    (h : arriveStep S i now = some S') : S'.callers.length = S.callers.length := by
  unfold arriveStep at h
  split at h
  case h_2 => exact absurd h (by simp)
  case h_1 p req hp =>
    simp only at h
    split at h
    · obtain rfl := Option.some_injective _ h
      simp
    · split at h <;>
      · obtain rfl := Option.some_injective _ h
        simp

theorem resolveStep_length {S : DOState} {i : Nat} {now : Int}
    {outcome : Except String String} {S' : DOState}
    (h : resolveStep S i now outcome = some S') : S'.callers.length = S.callers.length := by
  unfold resolveStep at h
  split at h
  case h_2 => exact absurd h (by simp)
  case h_1 p key req hp =>
    simp only at h
    split at h <;>
    · obtain rfl := Option.some_injective _ h
      simp

theorem step_length {S : DOState} {ev : Ev} {S' : DOState}
    (h : step S ev = some S') : S'.callers.length = S.callers.length := by
  cases ev with
  | arrive i now => exact arriveStep_length h
  | resolve i now outcome => exact resolveStep_length h

theorem run_length {S : DOState} {evs : List Ev} {S' : DOState}
    (h : run S evs = some S') : S'.callers.length = S.callers.length := by
  induction evs generalizing S with
  | nil => obtain rfl := Option.some_injective _ h; rfl
  | cons ev evs ih =>
    unfold run at h
    split at h
    case h_1 S₁ hstep => exact (ih h).trans (step_length hstep)
    case h_2 => exact absurd h (by simp)

/-! ## The single-flight invariant

All predicates below are relative to one fixed request `req`; its
fingerprint `generateCacheKey req` is the coordination key. -/

/-- Per-caller invariant: every caller of this machine carries the
fixed request, uses its fingerprint as key, and a successfully finished
caller holds the content of the persisted entry. -/
def PhaseOK (req : GatewayRequest) (stor : List (String × CachedEntry)) : Phase → Prop
  | .ready r => r = req
  | .awaitingUpstream k r => k = generateCacheKey req ∧ r = req
  | .waiting k => k = generateCacheKey req
  | .done (.ok (e, _)) =>
      ∃ se, alistGet (generateCacheKey req) stor = some se ∧ e.content = se.content
  | .done (.error _) => False

/-- The single-flight state invariant (for runs with no failed
generation): upstream-call accounting, the pending table mirrors the
unique in-flight initiator, and at most one caller ever finished with
`cached = false`. -/
structure Good (req : GatewayRequest) (S : DOState) : Prop where
  count : S.upstreamCalls =
    (if (alistGet (generateCacheKey req) S.storage).isSome then 1 else 0) +
    (if (alistGet (generateCacheKey req) S.pending).isSome then 1 else 0)
  phases : ∀ i (h : i < S.callers.length), PhaseOK req S.storage S.callers[i]
  pendIff : (alistGet (generateCacheKey req) S.pending).isSome ↔
    ∃ i, ∃ h : i < S.callers.length, isAwaitingB (generateCacheKey req) S.callers[i] = true
  notBoth : ¬((alistGet (generateCacheKey req) S.storage).isSome ∧
    (alistGet (generateCacheKey req) S.pending).isSome)
  uniqFalse : ∀ i j (hi : i < S.callers.length) (hj : j < S.callers.length),
    isDoneFalseB S.callers[i] = true → isDoneFalseB S.callers[j] = true → i = j
  uniqAwait : ∀ i j (hi : i < S.callers.length) (hj : j < S.callers.length),
    isAwaitingB (generateCacheKey req) S.callers[i] = true →
    isAwaitingB (generateCacheKey req) S.callers[j] = true → i = j

/-- Some caller already finished with a propagated error. -/
def HasErrDone (S : DOState) : Prop :=
  ∃ i, ∃ h : i < S.callers.length, isDoneErrB S.callers[i] = true

/-- The run invariant. -/
def RunInv (req : GatewayRequest) (S : DOState) : Prop :=
  HasErrDone S ∨ Good req S

/-! ## Inversion of the two step kinds -/

theorem arriveStep_cases {S : DOState} {i : Nat} {now : Int} {S' : DOState}
    (h : arriveStep S i now = some S') :
    ∃ req, ∃ hi : i < S.callers.length, S.callers[i] = .ready req ∧
      ((∃ e, alistGet (generateCacheKey req) S.storage = some e ∧
        S' = { S with storage := alistPut (generateCacheKey req) (refreshEntry e now) S.storage
                    , callers := S.callers.set i (.done (.ok (refreshEntry e now, true))) }) ∨
       (alistGet (generateCacheKey req) S.storage = none ∧
        (alistGet (generateCacheKey req) S.pending).isSome = true ∧
        S' = { S with callers := S.callers.set i (.waiting (generateCacheKey req)) }) ∨
       (alistGet (generateCacheKey req) S.storage = none ∧
        alistGet (generateCacheKey req) S.pending = none ∧
        S' = { S with pending := alistPut (generateCacheKey req) i S.pending
                    , callers := S.callers.set i (.awaitingUpstream (generateCacheKey req) req)
                    , upstreamCalls := S.upstreamCalls + 1 })) := by
  unfold arriveStep at h
  split at h
  case h_2 => exact absurd h (by simp)
  case h_1 p req hp =>
    obtain ⟨hi, hget⟩ := List.getElem?_eq_some.mp hp
    refine ⟨req, hi, hget, ?_⟩
    simp only at h
    split at h
    case h_1 e hge =>
      obtain rfl := Option.some_injective _ h
      exact Or.inl ⟨e, hge, rfl⟩
    case h_2 hge =>
      split at h
      case h_1 j hgp =>
        obtain rfl := Option.some_injective _ h
        exact Or.inr (Or.inl ⟨hge, by simp [hgp], rfl⟩)
      case h_2 hgp =>
        obtain rfl := Option.some_injective _ h
        exact Or.inr (Or.inr ⟨hge, hgp, rfl⟩)

theorem resolveStep_cases {S : DOState} {i : Nat} {now : Int}
    {outcome : Except String String} {S' : DOState}
    (h : resolveStep S i now outcome = some S') :
    ∃ key req, ∃ hi : i < S.callers.length, S.callers[i] = .awaitingUpstream key req ∧
      ((∃ content, outcome = .ok content ∧
        S' = ⟨alistPut key (newEntry req key content now) S.storage,
              alistRemove key S.pending,
              (S.callers.set i (.done (.ok (newEntry req key content now, false)))).map
                (resolveWaiter key (.ok (newEntry req key content now, true))),
              S.upstreamCalls⟩) ∨
       (∃ err, outcome = .error err ∧
        S' = ⟨S.storage, alistRemove key S.pending,
              (S.callers.set i (.done (.error err))).map (resolveWaiter key (.error err)),
              S.upstreamCalls⟩)) := by
  unfold resolveStep at h
  split at h
  case h_2 => exact absurd h (by simp)
  case h_1 p key req hp =>
    obtain ⟨hi, hget⟩ := List.getElem?_eq_some.mp hp
    refine ⟨key, req, hi, hget, ?_⟩
    split at h
    case h_1 content =>
      obtain rfl := Option.some_injective _ h
      exact Or.inl ⟨content, rfl, rfl⟩
    case h_2 err =>
      obtain rfl := Option.some_injective _ h
      exact Or.inr ⟨err, rfl, rfl⟩

/-! ## Helpers about predicates over `List.set` -/

theorem exists_pred_set_iff (P : Phase → Bool) (l : List Phase) (i : Nat) (v : Phase)
    (hi : i < l.length) (hold : P l[i] = false) (hnew : P v = false) :
    (∃ j, ∃ hj : j < (l.set i v).length, P (l.set i v)[j] = true) ↔
    (∃ j, ∃ hj : j < l.length, P l[j] = true) := by
  constructor
  · rintro ⟨j, hj, hP⟩
    have hj' : j < l.length := by simpa using hj
    by_cases hij : i = j
    · subst hij
      rw [List.getElem_set_self] at hP
      rw [hnew] at hP
      cases hP
    · rw [List.getElem_set_ne hij] at hP
      exact ⟨j, hj', hP⟩
  · rintro ⟨j, hj, hP⟩
    by_cases hij : i = j
    · subst hij
      rw [hold] at hP
      cases hP
    · exact ⟨j, by simpa using hj, by rw [List.getElem_set_ne hij]; exact hP⟩

theorem uniq_pred_set (P : Phase → Bool) {l : List Phase} {i : Nat} {v : Phase}
    (hnew : P v = false)
    (huniq : ∀ a b (ha : a < l.length) (hb : b < l.length),
      P l[a] = true → P l[b] = true → a = b) :
    ∀ a b (ha : a < (l.set i v).length) (hb : b < (l.set i v).length),
      P (l.set i v)[a] = true → P (l.set i v)[b] = true → a = b := by
  intro a b ha hb hPa hPb
  by_cases hia : i = a
  · subst hia
    rw [List.getElem_set_self, hnew] at hPa
    cases hPa
  · by_cases hib : i = b
    · subst hib
      rw [List.getElem_set_self, hnew] at hPb
      cases hPb
    · rw [List.getElem_set_ne hia] at hPa
      rw [List.getElem_set_ne hib] at hPb
      exact huniq a b (by simpa using ha) (by simpa using hb) hPa hPb

theorem uniq_pred_set_of_none (P : Phase → Bool) {l : List Phase} {i : Nat} {v : Phase}
    (hnone : ∀ a (ha : a < l.length), P l[a] = false) :
    ∀ a b (ha : a < (l.set i v).length) (hb : b < (l.set i v).length),
      P (l.set i v)[a] = true → P (l.set i v)[b] = true → a = b := by
  intro a b ha hb hPa hPb
  by_cases hia : i = a
  · by_cases hib : i = b
    · omega
    · exfalso
      rw [List.getElem_set_ne hib] at hPb
      rw [hnone b (by simpa using hb)] at hPb
      cases hPb
  · exfalso
    rw [List.getElem_set_ne hia] at hPa
    rw [hnone a (by simpa using ha)] at hPa
    cases hPa

/-! ## Preservation of the invariant -/

theorem isDoneErrB_iff (p : Phase) : isDoneErrB p = true ↔ ∃ e, p = .done (.error e) := by
  cases p with
  | done res => cases res <;> simp [isDoneErrB]
  | ready r => simp [isDoneErrB]
  | awaitingUpstream k r => simp [isDoneErrB]
  | waiting k => simp [isDoneErrB]

theorem good_arrive (req : GatewayRequest) {S S' : DOState} {i : Nat} {now : Int}
    (hg : Good req S) (h : arriveStep S i now = some S') : Good req S' := by
  obtain ⟨r, hi, hget, hcases⟩ := arriveStep_cases h
  have hr : r = req := by
    have hp := hg.phases i hi
    rw [hget] at hp
    exact hp
  subst r
  have holdi : isAwaitingB (generateCacheKey req) S.callers[i] = false := by
    rw [hget]; rfl
  rcases hcases with ⟨e, hge, rfl⟩ | ⟨hge, hgp, rfl⟩ | ⟨hge, hgp, rfl⟩
  · -- cache hit
    refine ⟨?_, ?_, ?_, ?_, ?_, ?_⟩
    · have hc := hg.count
      rw [hge] at hc
      simpa [alistGet_put_self] using hc
    · intro j hj'
      have hj : j < S.callers.length := by simpa using hj'
      by_cases hij : i = j
      · subst hij
        simp only [List.getElem_set_self]
        exact ⟨refreshEntry e now, alistGet_put_self _ _ _, rfl⟩
      · simp only [List.getElem_set_ne hij]
        have hp := hg.phases j hj
        cases hq : S.callers[j] with
        | ready r' => rw [hq] at hp; exact hp
        | awaitingUpstream k' r' => rw [hq] at hp; exact hp
        | waiting k' => rw [hq] at hp; exact hp
        | done res =>
          cases res with
          | error e' => rw [hq] at hp; exact hp.elim
          | ok pr =>
            obtain ⟨e₂, b⟩ := pr
            rw [hq] at hp
            obtain ⟨se, hse, hcont⟩ := hp
            rw [hge] at hse
            have hse' : e = se := Option.some_injective _ hse
            subst se
            exact ⟨refreshEntry e now, alistGet_put_self _ _ _, hcont⟩
    · rw [exists_pred_set_iff _ _ i (.done (.ok (refreshEntry e now, true))) hi holdi rfl]
      exact hg.pendIff
    · rintro ⟨_, hpend⟩
      exact hg.notBoth ⟨by rw [hge]; rfl, hpend⟩
    · exact uniq_pred_set _ rfl hg.uniqFalse
    · exact uniq_pred_set _ rfl hg.uniqAwait
  · -- join in-flight
    refine ⟨hg.count, ?_, ?_, hg.notBoth, ?_, ?_⟩
    · intro j hj'
      have hj : j < S.callers.length := by simpa using hj'
      by_cases hij : i = j
      · subst hij
        simp only [List.getElem_set_self]
        exact rfl
      · simp only [List.getElem_set_ne hij]
        exact hg.phases j hj
    · rw [exists_pred_set_iff _ _ i (.waiting (generateCacheKey req)) hi holdi rfl]
      exact hg.pendIff
    · exact uniq_pred_set _ rfl hg.uniqFalse
    · exact uniq_pred_set _ rfl hg.uniqAwait
  · -- initiate
    have hc := hg.count
    rw [hge, hgp] at hc
    simp only [Option.isSome_none, Bool.false_eq_true, if_false] at hc
    have hnoawait : ∀ a (ha : a < S.callers.length),
        isAwaitingB (generateCacheKey req) S.callers[a] = false := by
      intro a ha
      cases hb : isAwaitingB (generateCacheKey req) S.callers[a] with
      | false => rfl
      | true =>
        have := hg.pendIff.mpr ⟨a, ha, hb⟩
        rw [hgp] at this
        cases this
    refine ⟨?_, ?_, ?_, ?_, ?_, ?_⟩
    · rw [hge, alistGet_put_self]
      simpa using hc
    · intro j hj'
      have hj : j < S.callers.length := by simpa using hj'
      by_cases hij : i = j
      · subst hij
        simp only [List.getElem_set_self]
        exact ⟨rfl, rfl⟩
      · simp only [List.getElem_set_ne hij]
        exact hg.phases j hj
    · constructor
      · intro _
        refine ⟨i, by simpa using hi, ?_⟩
        simp only [List.getElem_set_self]
        simp [isAwaitingB]
      · intro _
        rw [alistGet_put_self]
        rfl
    · rintro ⟨hs, _⟩
      rw [hge] at hs
      cases hs
    · exact uniq_pred_set _ rfl hg.uniqFalse
    · exact uniq_pred_set_of_none _ hnoawait

theorem good_resolve (req : GatewayRequest) {S S' : DOState} {i : Nat} {now : Int}
    {outcome : Except String String}
    (hg : Good req S) (h : resolveStep S i now outcome = some S') : RunInv req S' := by
  obtain ⟨key, r, hi, hget, hcases⟩ := resolveStep_cases h
  have hp := hg.phases i hi
  rw [hget] at hp
  obtain ⟨hkey, hr⟩ := hp
  subst key
  subst r
  have hawaiti : isAwaitingB (generateCacheKey req) S.callers[i] = true := by
    rw [hget]; simp [isAwaitingB]
  have hpend : (alistGet (generateCacheKey req) S.pending).isSome = true :=
    hg.pendIff.mpr ⟨i, hi, hawaiti⟩
  have hstor : alistGet (generateCacheKey req) S.storage = none := by
    cases ho : alistGet (generateCacheKey req) S.storage with
    | none => rfl
    | some e => exact absurd ⟨by rw [ho]; rfl, hpend⟩ hg.notBoth
  rcases hcases with ⟨content, houtcome, rfl⟩ | ⟨err, houtcome, rfl⟩
  · -- upstream success
    right
    set e := newEntry req (generateCacheKey req) content now with he
    have hchar : ∀ j (hj : j < S.callers.length),
        ((S.callers.set i (.done (.ok (e, false)))).map
          (resolveWaiter (generateCacheKey req) (.ok (e, true))))[j]? =
        some (if j = i then .done (.ok (e, false))
          else if S.callers[j] = .waiting (generateCacheKey req) then .done (.ok (e, true))
          else S.callers[j]) := by
      intro j hj
      have hj₁ : j < ((S.callers.set i (.done (.ok (e, false)))).map
          (resolveWaiter (generateCacheKey req) (.ok (e, true)))).length := by simpa using hj
      rw [List.getElem?_eq_getElem hj₁, List.getElem_map]
      by_cases hij : j = i
      · subst hij
        rw [List.getElem_set_self]
        simp [resolveWaiter]
      · rw [List.getElem_set_ne (fun hh => hij hh.symm)]
        cases hq : S.callers[j] with
        | ready r' => simp [resolveWaiter, hij]
        | awaitingUpstream k' r' =>
          have hpj := hg.phases j hj
          rw [hq] at hpj
          obtain ⟨rfl, rfl⟩ := hpj
          have := hg.uniqAwait j i hj hi (by rw [hq]; simp [isAwaitingB]) hawaiti
          exact absurd this hij
        | waiting k' =>
          have hpj := hg.phases j hj
          rw [hq] at hpj
          subst k'
          simp [resolveWaiter, hij]
        | done res =>
          cases res with
          | error e' =>
            have hpj := hg.phases j hj
            rw [hq] at hpj
            exact hpj.elim
          | ok pr =>
            obtain ⟨e₂, b⟩ := pr
            have hpj := hg.phases j hj
            rw [hq] at hpj
            obtain ⟨se, hse, _⟩ := hpj
            rw [hstor] at hse
            cases hse
    have hchar' : ∀ j (hj : j < S.callers.length),
        ((S.callers.set i (.done (.ok (e, false)))).map
          (resolveWaiter (generateCacheKey req) (.ok (e, true)))).get
            ⟨j, by simpa using hj⟩ =
        (if j = i then .done (.ok (e, false))
          else if S.callers[j] = .waiting (generateCacheKey req) then .done (.ok (e, true))
          else S.callers[j]) := by
      intro j hj
      have := hchar j hj
      rw [List.getElem?_eq_getElem (by simpa using hj)] at this
      exact Option.some_injective _ this
    refine ⟨?_, ?_, ?_, ?_, ?_, ?_⟩
    · have hc := hg.count
      rw [hstor] at hc
      rw [alistGet_put_self, alistGet_remove_self]
      simp only [Option.isSome_none, Bool.false_eq_true, if_false, hpend, if_true] at hc
      simpa using hc
    · intro j hj'
      have hj : j < S.callers.length := by simpa using hj'
      have hcj := hchar' j hj
      rw [List.get_eq_getElem] at hcj
      rw [hcj]
      by_cases hij : j = i
      · simp only [hij, if_true]
        exact ⟨e, alistGet_put_self _ _ _, rfl⟩
      · simp only [hij, if_false]
        by_cases hw : S.callers[j] = .waiting (generateCacheKey req)
        · simp only [hw, if_true]
          exact ⟨e, alistGet_put_self _ _ _, rfl⟩
        · simp only [if_neg hw]
          have hpj := hg.phases j hj
          cases hq : S.callers[j] with
          | ready r' => rw [hq] at hpj; exact hpj
          | awaitingUpstream k' r' =>
            rw [hq] at hpj
            obtain ⟨rfl, rfl⟩ := hpj
            have := hg.uniqAwait j i hj hi (by rw [hq]; simp [isAwaitingB]) hawaiti
            exact absurd this hij
          | waiting k' =>
            rw [hq] at hpj
            subst k'
            exact absurd hq hw
          | done res =>
            cases res with
            | error e' => rw [hq] at hpj; exact hpj.elim
            | ok pr =>
              obtain ⟨e₂, b⟩ := pr
              rw [hq] at hpj
              obtain ⟨se, hse, _⟩ := hpj
              rw [hstor] at hse
              cases hse
    · rw [alistGet_remove_self]
      simp only [Option.isSome_none, Bool.false_eq_true, false_iff]
      rintro ⟨j, hj', hb⟩
      have hj : j < S.callers.length := by simpa using hj'
      have hcj := hchar' j hj
      rw [List.get_eq_getElem] at hcj
      rw [hcj] at hb
      by_cases hij : j = i
      · simp only [hij, if_true] at hb
        simp [isAwaitingB] at hb
      · simp only [hij, if_false] at hb
        by_cases hw : S.callers[j] = .waiting (generateCacheKey req)
        · simp only [hw, if_true] at hb
          simp [isAwaitingB] at hb
        · simp only [if_neg hw] at hb
          cases hq : S.callers[j] with
          | ready r' => rw [hq] at hb; simp [isAwaitingB] at hb
          | awaitingUpstream k' r' =>
            have hpj := hg.phases j hj
            rw [hq] at hpj
            obtain ⟨rfl, rfl⟩ := hpj
            have := hg.uniqAwait j i hj hi (by rw [hq]; simp [isAwaitingB]) hawaiti
            exact absurd this hij
          | waiting k' => rw [hq] at hb; simp [isAwaitingB] at hb
          | done res => rw [hq] at hb; simp [isAwaitingB] at hb
    · rw [alistGet_remove_self]
      rintro ⟨_, hs⟩
      cases hs
    · intro a b ha' hb' hPa hPb
      have ha : a < S.callers.length := by simpa using ha'
      have hb : b < S.callers.length := by simpa using hb'
      have hone : ∀ j (hj : j < S.callers.length),
          ∀ hjl : j < ((S.callers.set i (.done (.ok (e, false)))).map
            (resolveWaiter (generateCacheKey req) (.ok (e, true)))).length,
          isDoneFalseB (((S.callers.set i (.done (.ok (e, false)))).map
            (resolveWaiter (generateCacheKey req) (.ok (e, true))))[j]) = true → j = i := by
        intro j hj hjl hP
        by_contra hij
        have hcj := hchar' j hj
        rw [List.get_eq_getElem] at hcj
        rw [hcj] at hP
        simp only [hij, if_false] at hP
        by_cases hw : S.callers[j] = .waiting (generateCacheKey req)
        · simp only [hw, if_true] at hP
          simp [isDoneFalseB] at hP
        · simp only [if_neg hw] at hP
          cases hq : S.callers[j] with
          | ready r' => rw [hq] at hP; simp [isDoneFalseB] at hP
          | awaitingUpstream k' r' => rw [hq] at hP; simp [isDoneFalseB] at hP
          | waiting k' => exact hw (by
              have hpj := hg.phases j hj
              rw [hq] at hpj
              subst k'
              exact hq)
          | done res =>
            cases res with
            | error e' =>
              have hpj := hg.phases j hj
              rw [hq] at hpj
              exact hpj.elim
            | ok pr =>
              obtain ⟨e₂, bb⟩ := pr
              have hpj := hg.phases j hj
              rw [hq] at hpj
              obtain ⟨se, hse, _⟩ := hpj
              rw [hstor] at hse
              cases hse
      have : a = i := hone a ha ha' hPa
      have : b = i := hone b hb hb' hPb
      omega
    · intro a b ha' hb' hPa hPb
      have ha : a < S.callers.length := by simpa using ha'
      have hcj := hchar' a ha
      rw [List.get_eq_getElem] at hcj
      rw [hcj] at hPa
      by_cases hia : a = i
      · simp only [hia, if_true] at hPa
        simp [isAwaitingB] at hPa
      · simp only [hia, if_false] at hPa
        by_cases hw : S.callers[a] = .waiting (generateCacheKey req)
        · simp only [hw, if_true] at hPa
          simp [isAwaitingB] at hPa
        · simp only [if_neg hw] at hPa
          cases hq : S.callers[a] with
          | ready r' => rw [hq] at hPa; simp [isAwaitingB] at hPa
          | awaitingUpstream k' r' =>
            have hpj := hg.phases a ha
            rw [hq] at hpj
            obtain ⟨rfl, rfl⟩ := hpj
            have := hg.uniqAwait a i ha hi (by rw [hq]; simp [isAwaitingB]) hawaiti
            exact absurd this hia
          | waiting k' => rw [hq] at hPa; simp [isAwaitingB] at hPa
          | done res => rw [hq] at hPa; simp [isAwaitingB] at hPa
  · -- upstream failure: some caller is now finished with an error
    left
    refine ⟨i, by simpa using hi, ?_⟩
    have hi₁ : i < ((S.callers.set i (.done (.error err))).map
        (resolveWaiter (generateCacheKey req) (.error err))).length := by simpa using hi
    rw [List.getElem_map, List.getElem_set_self]
    rfl

theorem hasErrDone_step {S : DOState} {ev : Ev} {S' : DOState}
    (he : HasErrDone S) (h : step S ev = some S') : HasErrDone S' := by
  obtain ⟨j, hj, hbj⟩ := he
  obtain ⟨e', hq⟩ := (isDoneErrB_iff _).mp hbj
  cases ev with
  | arrive i now =>
    obtain ⟨r, hi, hget, hcases⟩ := arriveStep_cases h
    have hij : i ≠ j := by
      intro hh
      subst hh
      rw [hget] at hq
      cases hq
    have hset : ∀ v : Phase, ∀ hjl : j < (S.callers.set i v).length,
        isDoneErrB (S.callers.set i v)[j] = true := by
      intro v hjl
      rw [List.getElem_set_ne hij, hq]
      rfl
    rcases hcases with ⟨e, _, rfl⟩ | ⟨_, _, rfl⟩ | ⟨_, _, rfl⟩ <;>
      exact ⟨j, by simpa using hj, hset _ (by simpa using hj)⟩
  | resolve i now outcome =>
    obtain ⟨key, r, hi, hget, hcases⟩ := resolveStep_cases h
    have hij : i ≠ j := by
      intro hh
      subst hh
      rw [hget] at hq
      cases hq
    have hmap : ∀ (v : Phase) (res : Except String (CachedEntry × Bool)),
        ∀ hjl : j < ((S.callers.set i v).map (resolveWaiter key res)).length,
        isDoneErrB ((S.callers.set i v).map (resolveWaiter key res))[j] = true := by
      intro v res hjl
      rw [List.getElem_map, List.getElem_set_ne hij, hq]
      rfl
    rcases hcases with ⟨content, _, rfl⟩ | ⟨err, _, rfl⟩ <;>
      exact ⟨j, by simpa using hj, hmap _ _ (by simpa using hj)⟩

theorem runInv_step (req : GatewayRequest) {S S' : DOState} {ev : Ev}
    (hInv : RunInv req S) (h : step S ev = some S') : RunInv req S' := by
  rcases hInv with he | hg
  · exact Or.inl (hasErrDone_step he h)
  · cases ev with
    | arrive i now => exact Or.inr (good_arrive req hg h)
    | resolve i now outcome => exact good_resolve req hg h

theorem runInv_run (req : GatewayRequest) {S S' : DOState} {evs : List Ev}
    (hInv : RunInv req S) (h : run S evs = some S') : RunInv req S' := by
  induction evs generalizing S with
  | nil =>
    obtain rfl := Option.some_injective _ h
    exact hInv
  | cons ev evs ih =>
    unfold run at h
    split at h
    case h_1 S₁ hstep => exact ih (runInv_step req hInv hstep) h
    case h_2 => exact absurd h (by simp)

/-- The machine state at the delivery of `n` identical fresh requests:
no persisted entry for their fingerprint, empty pending table. -/
def initialState (stor : List (String × CachedEntry)) (req : GatewayRequest) (n : Nat) :
    DOState :=
  ⟨stor, [], List.replicate n (.ready req), 0⟩

theorem good_initial (req : GatewayRequest) (stor : List (String × CachedEntry)) (n : Nat)
    (hstor : alistGet (generateCacheKey req) stor = none) :
    Good req (initialState stor req n) := by
  refine ⟨?_, ?_, ?_, ?_, ?_, ?_⟩
  · simp [initialState, hstor, alistGet]
  · intro j hj
    simp only [initialState] at hj ⊢
    rw [List.getElem_replicate]
    exact rfl
  · simp only [initialState]
    constructor
    · intro hb
      rw [show alistGet (generateCacheKey req) ([] : List (String × Nat)) = none from rfl] at hb
      cases hb
    · rintro ⟨j, hj, hb⟩
      rw [List.getElem_replicate] at hb
      cases hb
  · rintro ⟨_, hb⟩
    simp only [initialState] at hb
    rw [show alistGet (generateCacheKey req) ([] : List (String × Nat)) = none from rfl] at hb
    cases hb
  · intro a b ha hb hPa hPb
    simp only [initialState] at ha hPa
    rw [List.getElem_replicate] at hPa
    cases hPa
  · intro a b ha hb hPa hPb
    simp only [initialState] at ha hPa
    rw [List.getElem_replicate] at hPa
    cases hPa

theorem isDoneOkB_iff (p : Phase) : isDoneOkB p = true ↔ ∃ e b, p = .done (.ok (e, b)) := by
  cases p with
  | done res =>
    cases res with
    | ok pr => obtain ⟨e, b⟩ := pr; simp [isDoneOkB]
    | error e => simp [isDoneOkB]
  | ready r => simp [isDoneOkB]
  | awaitingUpstream k r => simp [isDoneOkB]
  | waiting k => simp [isDoneOkB]

/-- C1 (single-flight): start from a state with no persisted entry
for the fingerprint of `req` and `N ≥ 1` identical pending requests.
Along any schedule of event deliveries after which every caller has
finished successfully, exactly one upstream (OpenAI) invocation was
issued, all callers received identical `content`, and at most one
caller got `cached = false` (the rest got `cached = true`). -/
theorem single_flight_exactly_one_upstream
    (req : GatewayRequest) (N : Nat) (stor : List (String × CachedEntry))
    (evs : List Ev) (final : DOState)
    (hN : 0 < N)
    (hstor : alistGet (generateCacheKey req) stor = none)
    (hrun : run (initialState stor req N) evs = some final)
    (hdone : ∀ j (hj : j < final.callers.length), isDoneOkB final.callers[j] = true) :
    final.upstreamCalls = 1 ∧
    (∀ a b (ha : a < final.callers.length) (hb : b < final.callers.length),
      contentOf final.callers[a] = contentOf final.callers[b]) ∧
    (∀ a b (ha : a < final.callers.length) (hb : b < final.callers.length),
      isDoneFalseB final.callers[a] = true → isDoneFalseB final.callers[b] = true → a = b) := by
  have hInv := runInv_run req (Or.inr (good_initial req stor N hstor)) hrun
  have hlen : final.callers.length = N := by
    rw [run_length hrun]
    simp [initialState]
  have hg : Good req final := by
    rcases hInv with he | hg
    · obtain ⟨j, hj, hbj⟩ := he
      have hok := hdone j hj
      obtain ⟨e', hqq⟩ := (isDoneErrB_iff _).mp hbj
      rw [hqq] at hok
      cases hok
    · exact hg
  have hnoaw : ¬ ∃ j, ∃ hj : j < final.callers.length,
      isAwaitingB (generateCacheKey req) final.callers[j] = true := by
    rintro ⟨j, hj, hb⟩
    have hok := hdone j hj
    obtain ⟨e', b', hqq⟩ := (isDoneOkB_iff _).mp hok
    rw [hqq] at hb
    cases hb
  have hpendnone : (alistGet (generateCacheKey req) final.pending).isSome = false := by
    cases hbp : (alistGet (generateCacheKey req) final.pending).isSome with
    | false => rfl
    | true => exact absurd (hg.pendIff.mp hbp) hnoaw
  have h0 : 0 < final.callers.length := by omega
  obtain ⟨e0, b0, hq0⟩ := (isDoneOkB_iff _).mp (hdone 0 h0)
  have hp0 := hg.phases 0 h0
  rw [hq0] at hp0
  obtain ⟨se, hse, hcont0⟩ := hp0
  refine ⟨?_, ?_, hg.uniqFalse⟩
  · have hc := hg.count
    rw [hse] at hc
    rw [hpendnone] at hc
    simpa using hc
  · intro a b ha hb
    obtain ⟨ea, ba, hqa⟩ := (isDoneOkB_iff _).mp (hdone a ha)
    obtain ⟨eb, bb, hqb⟩ := (isDoneOkB_iff _).mp (hdone b hb)
    have hpa := hg.phases a ha
    have hpb := hg.phases b hb
    rw [hqa] at hpa
    rw [hqb] at hpb
    obtain ⟨sa, hsa, hca⟩ := hpa
    obtain ⟨sb, hsb, hcb⟩ := hpb
    rw [hse] at hsa hsb
    have hsa' : sa = se := (Option.some_injective _ hsa).symm
    have hsb' : sb = se := (Option.some_injective _ hsb).symm
    subst hsa'
    subst hsb'
    rw [hqa, hqb]
    show some ea.content = some eb.content
    rw [hca, hcb]

/-- Concrete request used by the machine witnesses: the spec's
single-flight scenario (`seed = 12345`, `temperature = 0`,
`model = "m"`, `prompt = "p"`). -/
def cReq : GatewayRequest := ⟨"m", "p", 12345, some 0, none, none⟩

/-- A concrete two-caller schedule: both arrive during the miss window,
then the initiator's upstream call succeeds. -/
def cEvs : List Ev := [.arrive 0 100, .arrive 1 101, .resolve 0 102 (.ok "out")]

/-- The entry generated by the concrete schedule. -/
def cEntry : CachedEntry := ⟨"out", "m", 12345, generateCacheKey cReq, 102, 102, 0⟩

/-- The final state of the concrete schedule. -/
def cFinal : DOState :=
  ⟨[(generateCacheKey cReq, cEntry)], [],
   [.done (.ok (cEntry, false)), .done (.ok (cEntry, true))], 1⟩

set_option maxRecDepth 100000 in
/-- Witness for C1 at the concrete schedule `cEvs`. -/
theorem single_flight_exactly_one_upstream_witness :
    run (initialState [] cReq 2) cEvs = some cFinal ∧
    cFinal.upstreamCalls = 1 ∧
    (∀ a b (ha : a < cFinal.callers.length) (hb : b < cFinal.callers.length),
      contentOf cFinal.callers[a] = contentOf cFinal.callers[b]) ∧
    (∀ a b (ha : a < cFinal.callers.length) (hb : b < cFinal.callers.length),
      isDoneFalseB cFinal.callers[a] = true → isDoneFalseB cFinal.callers[b] = true →
        a = b) := by
  have hrun : run (initialState [] cReq 2) cEvs = some cFinal := by decide
  have hdone : ∀ j (hj : j < cFinal.callers.length), isDoneOkB cFinal.callers[j] = true := by
    decide
  exact ⟨hrun,
    single_flight_exactly_one_upstream cReq 2 [] cEvs cFinal (by decide) rfl hrun hdone⟩

/-- C4 (cache-hit frame): when a persisted entry exists for the
request's fingerprint, delivering the request performs no upstream call,
leaves the pending table alone, returns that entry to the caller with
`cached = true`, and rewrites the stored entry updating only
`last_accessed` (to now) and `hit_count` (incremented by one), leaving
`content`, `model`, `seed`, `request_hash` and `cached_at` unchanged. -/
theorem cache_hit_frame
    (S : DOState) (req : GatewayRequest) (i : Nat) (now : Int) (e : CachedEntry)
    (hi : i < S.callers.length)
    (hready : S.callers[i] = .ready req)
    (hstor : alistGet (generateCacheKey req) S.storage = some e) :
    ∃ S', arriveStep S i now = some S' ∧
      S'.upstreamCalls = S.upstreamCalls ∧
      S'.pending = S.pending ∧
      S'.storage = alistPut (generateCacheKey req) (refreshEntry e now) S.storage ∧
      S'.callers = S.callers.set i (.done (.ok (refreshEntry e now, true))) ∧
      (refreshEntry e now).last_accessed = now ∧
      (refreshEntry e now).hit_count = e.hit_count + 1 ∧
      (refreshEntry e now).content = e.content ∧
      (refreshEntry e now).model = e.model ∧
      (refreshEntry e now).seed = e.seed ∧
      (refreshEntry e now).request_hash = e.request_hash ∧
      (refreshEntry e now).cached_at = e.cached_at := by
  have hstep : arriveStep S i now = some
      { S with storage := alistPut (generateCacheKey req) (refreshEntry e now) S.storage
             , callers := S.callers.set i (.done (.ok (refreshEntry e now, true))) } := by
    unfold arriveStep
    rw [List.getElem?_eq_getElem hi, hready]
    simp only
    rw [hstor]
  refine ⟨_, hstep, rfl, rfl, rfl, rfl, rfl, ?_, rfl, rfl, rfl, rfl, rfl⟩
  simp [refreshEntry, jsOrNat_zero]

/-- Witness for C4: a one-caller state whose storage already holds
`cEntry` under the fingerprint of `cReq`. -/
def hitState : DOState :=
  ⟨[(generateCacheKey cReq, cEntry)], [], [.ready cReq], 0⟩

/-- Witness for C4 at `hitState`. -/
theorem cache_hit_frame_witness :
    alistGet (generateCacheKey cReq) hitState.storage = some cEntry ∧
    (∃ S', arriveStep hitState 0 200 = some S' ∧
      S'.upstreamCalls = hitState.upstreamCalls ∧
      S'.pending = hitState.pending ∧
      S'.storage = alistPut (generateCacheKey cReq) (refreshEntry cEntry 200) hitState.storage ∧
      S'.callers = hitState.callers.set 0 (.done (.ok (refreshEntry cEntry 200, true))) ∧
      (refreshEntry cEntry 200).last_accessed = 200 ∧
      (refreshEntry cEntry 200).hit_count = cEntry.hit_count + 1 ∧
      (refreshEntry cEntry 200).content = cEntry.content ∧
      (refreshEntry cEntry 200).model = cEntry.model ∧
      (refreshEntry cEntry 200).seed = cEntry.seed ∧
      (refreshEntry cEntry 200).request_hash = cEntry.request_hash ∧
      (refreshEntry cEntry 200).cached_at = cEntry.cached_at) := by
  constructor
  · simp [hitState, alistGet]
  · exact cache_hit_frame hitState cReq 0 200 cEntry (by simp [hitState]) rfl
      (by simp [hitState, alistGet])

/-- C5 (fresh-generation postcondition): with no persisted entry and
no pending generation for the request's fingerprint, the arriving caller
becomes the initiator (one upstream call is issued); when the upstream
call succeeds, a `CachedEntry` with `cached_at = last_accessed = now`
and `hit_count = 0` carrying the generated content is persisted under
the fingerprint key and returned to this caller with `cached = false`. -/
theorem fresh_generation_postcondition
    (S : DOState) (req : GatewayRequest) (i : Nat) (now₁ now₂ : Int) (content : String)
    (hi : i < S.callers.length)
    (hready : S.callers[i] = .ready req)
    (hstor : alistGet (generateCacheKey req) S.storage = none)
    (hpend : alistGet (generateCacheKey req) S.pending = none) :
    ∃ S₁ S₂,
      arriveStep S i now₁ = some S₁ ∧
      S₁.callers[i]? = some (.awaitingUpstream (generateCacheKey req) req) ∧
      S₁.upstreamCalls = S.upstreamCalls + 1 ∧
      resolveStep S₁ i now₂ (.ok content) = some S₂ ∧
      (newEntry req (generateCacheKey req) content now₂).cached_at = now₂ ∧
      (newEntry req (generateCacheKey req) content now₂).last_accessed = now₂ ∧
      (newEntry req (generateCacheKey req) content now₂).hit_count = 0 ∧
      (newEntry req (generateCacheKey req) content now₂).content = content ∧
      (newEntry req (generateCacheKey req) content now₂).model = req.model ∧
      (newEntry req (generateCacheKey req) content now₂).seed = req.seed ∧
      (newEntry req (generateCacheKey req) content now₂).request_hash = generateCacheKey req ∧
      alistGet (generateCacheKey req) S₂.storage =
        some (newEntry req (generateCacheKey req) content now₂) ∧
      S₂.callers[i]? =
        some (.done (.ok (newEntry req (generateCacheKey req) content now₂, false))) := by
  have hi₁ : i < (S.callers.set i
      (Phase.awaitingUpstream (generateCacheKey req) req)).length := by simpa using hi
  have hstep₁ : arriveStep S i now₁ = some
      { S with pending := alistPut (generateCacheKey req) i S.pending
             , callers := S.callers.set i (.awaitingUpstream (generateCacheKey req) req)
             , upstreamCalls := S.upstreamCalls + 1 } := by
    unfold arriveStep
    rw [List.getElem?_eq_getElem hi, hready]
    simp only
    rw [hstor, hpend]
  have hstep₂ : resolveStep
      { S with pending := alistPut (generateCacheKey req) i S.pending
             , callers := S.callers.set i (.awaitingUpstream (generateCacheKey req) req)
             , upstreamCalls := S.upstreamCalls + 1 } i now₂ (.ok content) = some
      ⟨alistPut (generateCacheKey req) (newEntry req (generateCacheKey req) content now₂)
         S.storage,
       alistRemove (generateCacheKey req) (alistPut (generateCacheKey req) i S.pending),
       ((S.callers.set i (.awaitingUpstream (generateCacheKey req) req)).set i
          (.done (.ok (newEntry req (generateCacheKey req) content now₂, false)))).map
         (resolveWaiter (generateCacheKey req)
           (.ok (newEntry req (generateCacheKey req) content now₂, true))),
       S.upstreamCalls + 1⟩ := by
    unfold resolveStep
    rw [List.getElem?_eq_getElem hi₁, List.getElem_set_self]
  refine ⟨_, _, hstep₁, ?_, rfl, hstep₂, rfl, rfl, rfl, rfl, rfl, rfl, rfl, ?_, ?_⟩
  · rw [List.getElem?_eq_getElem hi₁, List.getElem_set_self]
  · exact alistGet_put_self _ _ _
  · have hi₂ : i < (((S.callers.set i (Phase.awaitingUpstream (generateCacheKey req) req)).set i
        (Phase.done (.ok (newEntry req (generateCacheKey req) content now₂, false)))).map
        (resolveWaiter (generateCacheKey req)
          (.ok (newEntry req (generateCacheKey req) content now₂, true)))).length := by
      simpa using hi
    rw [List.getElem?_eq_getElem hi₂, List.getElem_map, List.getElem_set_self]
    rfl

/-- Witness for C5: one fresh caller over an empty machine. -/
def freshState : DOState := ⟨[], [], [.ready cReq], 0⟩

/-- Witness for C5 at `freshState`. -/
theorem fresh_generation_postcondition_witness :
    alistGet (generateCacheKey cReq) freshState.storage = none ∧
    (∃ S₁ S₂,
      arriveStep freshState 0 300 = some S₁ ∧
      S₁.callers[0]? = some (.awaitingUpstream (generateCacheKey cReq) cReq) ∧
      S₁.upstreamCalls = freshState.upstreamCalls + 1 ∧
      resolveStep S₁ 0 301 (.ok "fresh") = some S₂ ∧
      (newEntry cReq (generateCacheKey cReq) "fresh" 301).cached_at = 301 ∧
      (newEntry cReq (generateCacheKey cReq) "fresh" 301).last_accessed = 301 ∧
      (newEntry cReq (generateCacheKey cReq) "fresh" 301).hit_count = 0 ∧
      (newEntry cReq (generateCacheKey cReq) "fresh" 301).content = "fresh" ∧
      (newEntry cReq (generateCacheKey cReq) "fresh" 301).model = cReq.model ∧
      (newEntry cReq (generateCacheKey cReq) "fresh" 301).seed = cReq.seed ∧
      (newEntry cReq (generateCacheKey cReq) "fresh" 301).request_hash = generateCacheKey cReq ∧
      alistGet (generateCacheKey cReq) S₂.storage =
        some (newEntry cReq (generateCacheKey cReq) "fresh" 301) ∧
      S₂.callers[0]? =
        some (.done (.ok (newEntry cReq (generateCacheKey cReq) "fresh" 301, false)))) :=
  ⟨rfl, fresh_generation_postcondition freshState cReq 0 300 301 "fresh"
    (by simp [freshState]) rfl rfl rfl⟩

/-- Equation for the initiate branch of `arriveStep`. -/
theorem arriveStep_initiate_eq (S : DOState) (req : GatewayRequest) (m : Nat) (now : Int)
    (hm : m < S.callers.length)
    (hready : S.callers[m] = .ready req)
    (hstor : alistGet (generateCacheKey req) S.storage = none)
    (hpend : alistGet (generateCacheKey req) S.pending = none) :
    arriveStep S m now = some
      { S with pending := alistPut (generateCacheKey req) m S.pending
             , callers := S.callers.set m (.awaitingUpstream (generateCacheKey req) req)
             , upstreamCalls := S.upstreamCalls + 1 } := by
  unfold arriveStep
  rw [List.getElem?_eq_getElem hm, hready]
  simp only
  rw [hstor, hpend]

/-- Equation for the success branch of `resolveStep`. -/
theorem resolveStep_ok_eq (S : DOState) (req : GatewayRequest) (i : Nat) (now : Int)
    (content : String)
    (hi : i < S.callers.length)
    (hawait : S.callers[i] = .awaitingUpstream (generateCacheKey req) req) :
    resolveStep S i now (.ok content) = some
      ⟨alistPut (generateCacheKey req) (newEntry req (generateCacheKey req) content now)
         S.storage,
       alistRemove (generateCacheKey req) S.pending,
       (S.callers.set i
          (.done (.ok (newEntry req (generateCacheKey req) content now, false)))).map
         (resolveWaiter (generateCacheKey req)
           (.ok (newEntry req (generateCacheKey req) content now, true))),
       S.upstreamCalls⟩ := by
  unfold resolveStep
  rw [List.getElem?_eq_getElem hi, hawait]

/-- Equation for the failure branch of `resolveStep`. -/
theorem resolveStep_error_eq (S : DOState) (req : GatewayRequest) (i : Nat) (now : Int)
    (err : String)
    (hi : i < S.callers.length)
    (hawait : S.callers[i] = .awaitingUpstream (generateCacheKey req) req) :
    resolveStep S i now (.error err) = some
      ⟨S.storage,
       alistRemove (generateCacheKey req) S.pending,
       (S.callers.set i (.done (.error err))).map
         (resolveWaiter (generateCacheKey req) (.error err)),
       S.upstreamCalls⟩ := by
  unfold resolveStep
  rw [List.getElem?_eq_getElem hi, hawait]

/-- C3 (failure atomicity): for an in-flight generation, the
pending entry is removed on every exit path; when the upstream call
fails, the error is propagated to the initiator and to every attached
waiter, the store is completely unchanged (no `CacheEntry` is written),
and a subsequent identical request from a fresh caller starts a
brand-new upstream call. -/
theorem failure_atomicity_clears_pending
    (S : DOState) (req : GatewayRequest) (i : Nat) (now : Int) (err : String)
    (hi : i < S.callers.length)
    (hawait : S.callers[i] = .awaitingUpstream (generateCacheKey req) req)
    (hstor : alistGet (generateCacheKey req) S.storage = none) :
    (∀ outcome : Except String String, ∃ S', resolveStep S i now outcome = some S' ∧
      alistGet (generateCacheKey req) S'.pending = none) ∧
    (∃ S', resolveStep S i now (.error err) = some S' ∧
      S'.storage = S.storage ∧
      alistGet (generateCacheKey req) S'.pending = none ∧
      S'.callers[i]? = some (.done (.error err)) ∧
      (∀ j (hj : j < S.callers.length), S.callers[j] = .waiting (generateCacheKey req) →
        S'.callers[j]? = some (.done (.error err))) ∧
      S'.upstreamCalls = S.upstreamCalls ∧
      (∀ m (now' : Int) (hm : m < S'.callers.length), S'.callers[m] = .ready req →
        ∃ S'', arriveStep S' m now' = some S'' ∧
          S''.upstreamCalls = S'.upstreamCalls + 1 ∧
          S''.callers[m]? = some (.awaitingUpstream (generateCacheKey req) req))) := by
  constructor
  · intro outcome
    cases outcome with
    | ok content =>
      have h1 := resolveStep_ok_eq S req i now content hi hawait
      exact ⟨_, h1, alistGet_remove_self _ _⟩
    | error e =>
      have h1 := resolveStep_error_eq S req i now e hi hawait
      exact ⟨_, h1, alistGet_remove_self _ _⟩
  · have h1 := resolveStep_error_eq S req i now err hi hawait
    refine ⟨_, h1, rfl, alistGet_remove_self _ _, ?_, ?_, rfl, ?_⟩
    · have hi' : i < ((S.callers.set i (.done (.error err))).map
          (resolveWaiter (generateCacheKey req) (.error err))).length := by simpa using hi
      rw [List.getElem?_eq_getElem hi', List.getElem_map, List.getElem_set_self]
      rfl
    · intro j hj hw
      have hij : i ≠ j := by
        intro hh
        subst hh
        rw [hawait] at hw
        cases hw
      have hj' : j < ((S.callers.set i (.done (.error err))).map
          (resolveWaiter (generateCacheKey req) (.error err))).length := by simpa using hj
      rw [List.getElem?_eq_getElem hj', List.getElem_map, List.getElem_set_ne hij, hw]
      simp [resolveWaiter]
    · intro m now' hm hready'
      have h2 := arriveStep_initiate_eq
        ⟨S.storage,
         alistRemove (generateCacheKey req) S.pending,
         (S.callers.set i (.done (.error err))).map
           (resolveWaiter (generateCacheKey req) (.error err)),
         S.upstreamCalls⟩ req m now' hm hready' hstor (alistGet_remove_self _ _)
      refine ⟨_, h2, rfl, ?_⟩
      have hm' : m < (((S.callers.set i (.done (.error err))).map
          (resolveWaiter (generateCacheKey req) (.error err))).set m
            (.awaitingUpstream (generateCacheKey req) req)).length := by
        simpa using hm
      rw [List.getElem?_eq_getElem hm', List.getElem_set_self]

/-- Witness state for C3: an initiator in flight, one attached waiter,
one caller not yet delivered. -/
def pendState : DOState :=
  ⟨[], [(generateCacheKey cReq, 0)],
   [.awaitingUpstream (generateCacheKey cReq) cReq, .waiting (generateCacheKey cReq),
    .ready cReq], 1⟩

/-- Witness for C3 at `pendState`. -/
theorem failure_atomicity_clears_pending_witness :
    alistGet (generateCacheKey cReq) pendState.storage = none ∧
    ((∀ outcome : Except String String, ∃ S',
      resolveStep pendState 0 400 outcome = some S' ∧
      alistGet (generateCacheKey cReq) S'.pending = none) ∧
    (∃ S', resolveStep pendState 0 400 (.error "boom") = some S' ∧
      S'.storage = pendState.storage ∧
      alistGet (generateCacheKey cReq) S'.pending = none ∧
      S'.callers[0]? = some (.done (.error "boom")) ∧
      (∀ j (hj : j < pendState.callers.length),
        pendState.callers[j] = .waiting (generateCacheKey cReq) →
        S'.callers[j]? = some (.done (.error "boom"))) ∧
      S'.upstreamCalls = pendState.upstreamCalls ∧
      (∀ m (now' : Int) (hm : m < S'.callers.length), S'.callers[m] = .ready cReq →
        ∃ S'', arriveStep S' m now' = some S'' ∧
          S''.upstreamCalls = S'.upstreamCalls + 1 ∧
          S''.callers[m]? = some (.awaitingUpstream (generateCacheKey cReq) cReq)))) :=
  ⟨rfl, failure_atomicity_clears_pending pendState cReq 0 400 "boom"
    (by simp [pendState]) rfl rfl⟩

/-! ## C2: fingerprint stability -/

/-- First half of the C2 counterexample pair: model `"a:b"`, prompt `"c"`. -/
def sepReq1 : GatewayRequest := ⟨"a:b", "c", 0, none, none, none⟩

/-- Second half of the C2 counterexample pair: model `"a"`, prompt `"b:c"`. -/
def sepReq2 : GatewayRequest := ⟨"a", "b:c", 0, none, none, none⟩

/-- C2 counterexample: the `:` separator is ambiguous — the two
distinct default-substituted requests `sepReq1` and `sepReq2` produce
the same pre-hash string `"a:b:c::0:0:150"` and hence the same cache
key, refuting the claimed "if and only if" (and the claim that distinct
default-substituted tuples never produce the same pre-hash string). -/
theorem cache_key_separator_ambiguous :
    keyString sepReq1 = keyString sepReq2 ∧
    generateCacheKey sepReq1 = generateCacheKey sepReq2 ∧
    defaultSubst sepReq1 ≠ defaultSubst sepReq2 :=
  ⟨by decide, congrArg sha256Hex (by decide), by decide⟩

/-- C2 amended: default-substitution soundness — the direction of
the claim that survives: requests equal after default-substitution of
the optional fields always receive the same cache key. (The converse
fails by `cache_key_separator_ambiguous`.) -/
theorem cache_key_default_substitution_sound (r1 r2 : GatewayRequest)
    (h : defaultSubst r1 = defaultSubst r2) :
    generateCacheKey r1 = generateCacheKey r2 := by
  have hm := congrArg NormalizedRequest.model h
  have hp := congrArg NormalizedRequest.prompt h
  have hs := congrArg NormalizedRequest.systemPrompt h
  have ht := congrArg NormalizedRequest.temperature h
  have hsd := congrArg NormalizedRequest.seed h
  have hmt := congrArg NormalizedRequest.maxTokens h
  simp only [defaultSubst] at hm hp hs ht hsd hmt
  have hks : keyString r1 = keyString r2 := by
    simp only [keyString]
    rw [hm, hp, hs, ht, hsd, hmt]
  exact congrArg sha256Hex hks

/-- Witness for the amended C2: a request omitting all optional fields
and one spelling out their defaults collide. -/
theorem cache_key_default_substitution_sound_witness :
    defaultSubst ⟨"m", "p", 1, none, none, none⟩ =
      defaultSubst ⟨"m", "p", 1, some 0, some 150, some ""⟩ ∧
    generateCacheKey ⟨"m", "p", 1, none, none, none⟩ =
      generateCacheKey ⟨"m", "p", 1, some 0, some 150, some ""⟩ :=
  ⟨by decide, cache_key_default_substitution_sound _ _ (by decide)⟩

/-! ## C9: the `/cleanup` endpoint -/

/-- Environment used by concrete cleanup computations. -/
def envEx : Env := ⟨"key", "secret", none⟩

/-- C9 counterexample: the coordinator's `/cleanup` response body
carries the deletion count under the key `"deleted"`, not
`"deletedCount"`; and the worker front door's `/cleanup` branch
performs zero retention sweeps and also has no `"deletedCount"`
field — so the claim's stated response shape holds for no handler. -/
theorem cleanup_response_lacks_deletedCount :
    alistGet "deletedCount" (doHandleCleanup envEx 0 []).1.body = none ∧
    alistGet "deleted" (doHandleCleanup envEx 0 []).1.body = some (.jnum 0) ∧
    workerHandleCleanup.2 = 0 ∧
    alistGet "deletedCount" workerHandleCleanup.1.body = none := by
  refine ⟨by decide, by decide, rfl, by decide⟩

/-- C9 amended: a POST `/cleanup` handled by the coordinator
(Durable Object) triggers the retention sweep and responds `200` with
the count of deleted entries under the key `deleted` plus
`status: "ok"`; the worker front door's `/cleanup` branch responds
`200 {status: "ok", message}` without triggering any sweep. -/
theorem cleanup_endpoint_behaviour (env : Env) (now : Int)
    (stor : List (String × CachedEntry)) :
    (doHandleCleanup env now stor).1.status = 200 ∧
    (doHandleCleanup env now stor).1.body =
      [("deleted", .jnum ((cleanupExpiredEntries env now stor).1 : Rat)),
       ("status", .jstr "ok")] ∧
    (doHandleCleanup env now stor).2 = (cleanupExpiredEntries env now stor).2 ∧
    workerHandleCleanup.1.status = 200 ∧
    workerHandleCleanup.2 = 0 :=
  ⟨rfl, rfl, rfl, rfl, rfl⟩

/-! ## C10: fingerprint/upstream default divergence -/

/-- C10 (implicit): for a request whose `system_prompt` is absent or
the empty string, `callOpenAI` sends the upstream request with the
system message `'You are a helpful assistant.'` (the `||` default),
while `generateCacheKey` hashes the empty string in the `systemPrompt`
slot of the pre-hash string (the `?? ''` default) — the parameters
bound into the fingerprint differ from the parameters sent upstream. -/
theorem fingerprint_upstream_default_divergence (req : GatewayRequest)
    (h : req.system_prompt = none ∨ req.system_prompt = some "") :
    (openAIRequestOf req).messages =
      [⟨.system, "You are a helpful assistant."⟩, ⟨.user, req.prompt⟩] ∧
    keyString req = req.model ++ ":" ++ req.prompt ++ ":" ++ "" ++ ":" ++
      toString (req.temperature.getD 0) ++ ":" ++ toString req.seed ++ ":" ++
      toString (req.max_tokens.getD 150) ∧
    generateCacheKey req = sha256Hex (req.model ++ ":" ++ req.prompt ++ ":" ++ "" ++ ":" ++
      toString (req.temperature.getD 0) ++ ":" ++ toString req.seed ++ ":" ++
      toString (req.max_tokens.getD 150)) ∧
    ("You are a helpful assistant." : String) ≠ "" := by
  have hsys : jsOrStr req.system_prompt "You are a helpful assistant." =
      "You are a helpful assistant." := by
    rcases h with h | h <;> simp [jsOrStr, h]
  have hnorm : req.system_prompt.getD "" = "" := by
    rcases h with h | h <;> simp [h]
  refine ⟨?_, ?_, ?_, by decide⟩
  · simp [openAIRequestOf, hsys]
  · simp only [keyString, hnorm]
  · simp only [generateCacheKey, keyString, hnorm]

/-- Request with an absent system prompt for the C10 witness. -/
def noSysReq : GatewayRequest := ⟨"m", "p", 7, none, none, none⟩

/-- Witness for C10 at `noSysReq`. -/
theorem fingerprint_upstream_default_divergence_witness :
    (noSysReq.system_prompt = none ∨ noSysReq.system_prompt = some "") ∧
    ((openAIRequestOf noSysReq).messages =
      [⟨.system, "You are a helpful assistant."⟩, ⟨.user, noSysReq.prompt⟩] ∧
    keyString noSysReq = noSysReq.model ++ ":" ++ noSysReq.prompt ++ ":" ++ "" ++ ":" ++
      toString (noSysReq.temperature.getD 0) ++ ":" ++ toString noSysReq.seed ++ ":" ++
      toString (noSysReq.max_tokens.getD 150) ∧
    generateCacheKey noSysReq = sha256Hex (noSysReq.model ++ ":" ++ noSysReq.prompt ++
      ":" ++ "" ++ ":" ++ toString (noSysReq.temperature.getD 0) ++ ":" ++
      toString noSysReq.seed ++ ":" ++ toString (noSysReq.max_tokens.getD 150)) ∧
    ("You are a helpful assistant." : String) ≠ "") :=
  ⟨Or.inl rfl, fingerprint_upstream_default_divergence noSysReq (Or.inl rfl)⟩

/-! ## C6: validation rejection -/

theorem notNonEmptyString_iff (m : Option JVal) :
    (!truthyOpt m || !isStringVal m) = true ↔ ¬ ∃ s, m = some (.jstr s) ∧ s ≠ "" := by
  cases m with
  | none => simp [truthyOpt, isStringVal]
  | some v =>
    cases v with
    | jstr s =>
      by_cases hs : s = "" <;> simp [truthyOpt, truthy, isStringVal, hs]
    | jnum q => simp [truthyOpt, truthy, isStringVal]
    | jbool b => simp [truthyOpt, truthy, isStringVal]

theorem notNumber_iff (m : Option JVal) :
    (!isNumberVal m) = true ↔ ¬ ∃ q, m = some (.jnum q) := by
  cases m with
  | none => simp [isNumberVal]
  | some v => cases v <;> simp [isNumberVal]

theorem temp_reject_iff (t : Option JVal) :
    t.getD (JVal.jnum 0) ≠ JVal.jnum 0 ↔ ∃ v, t = some v ∧ v ≠ JVal.jnum 0 := by
  cases t <;> simp

/-- C6 (validation rejection): `validateRequest` rejects exactly the
requests in which `model` or `prompt` is not a non-empty string, `seed`
is not a number, or `temperature` is present and not (strictly) equal
to the number `0`; and the worker front door answers every rejected
request with `400` and code `VALIDATION_ERROR` without deriving a
fingerprint and without forwarding to the coordinator (hence with zero
upstream calls). -/
theorem validation_rejection_exact (req : RawRequest) :
    ((validateRequest req).valid = false ↔
      ((¬ ∃ s, req.model = some (.jstr s) ∧ s ≠ "") ∨
       (¬ ∃ s, req.prompt = some (.jstr s) ∧ s ≠ "") ∨
       (¬ ∃ q, req.seed = some (.jnum q)) ∨
       (∃ v, req.temperature = some v ∧ v ≠ .jnum 0))) ∧
    ((validateRequest req).valid = false → ∀ co : Except String String,
      workerGenerate req co = ⟨400, some "VALIDATION_ERROR", []⟩) := by
  constructor
  · unfold validateRequest
    by_cases h1 : (!truthyOpt req.model || !isStringVal req.model) = true
    · rw [if_pos h1]
      exact iff_of_true rfl (Or.inl ((notNonEmptyString_iff _).mp h1))
    · rw [if_neg h1]
      by_cases h2 : (!truthyOpt req.prompt || !isStringVal req.prompt) = true
      · rw [if_pos h2]
        exact iff_of_true rfl (Or.inr (Or.inl ((notNonEmptyString_iff _).mp h2)))
      · rw [if_neg h2]
        by_cases h3 : (!isNumberVal req.seed) = true
        · rw [if_pos h3]
          exact iff_of_true rfl (Or.inr (Or.inr (Or.inl ((notNumber_iff _).mp h3))))
        · rw [if_neg h3]
          simp only
          by_cases h4 : req.temperature.getD (JVal.jnum 0) ≠ JVal.jnum 0
          · rw [if_pos h4]
            exact iff_of_true rfl (Or.inr (Or.inr (Or.inr ((temp_reject_iff _).mp h4))))
          · rw [if_neg h4]
            refine iff_of_false (by simp) ?_
            rintro (hA | hB | hC | hD)
            · exact h1 ((notNonEmptyString_iff _).mpr hA)
            · exact h2 ((notNonEmptyString_iff _).mpr hB)
            · exact h3 ((notNumber_iff _).mpr hC)
            · exact h4 ((temp_reject_iff _).mpr hD)
  · intro h co
    simp [workerGenerate, h]

/-- A request missing `seed` (the spec's own example) for the C6
witness. -/
def noSeedReq : RawRequest :=
  ⟨some (.jstr "m"), some (.jstr "p"), none, none, none, none⟩

/-- Witness for C6 at `noSeedReq`. -/
theorem validation_rejection_exact_witness :
    (validateRequest noSeedReq).valid = false ∧
    workerGenerate noSeedReq (.ok "x") = ⟨400, some "VALIDATION_ERROR", []⟩ :=
  ⟨by decide, (validation_rejection_exact noSeedReq).2 (by decide) (.ok "x")⟩

/-! ## C7: retention correctness -/

theorem sweepList_eq_filter (cutoff : Option Int) (l : List (String × CachedEntry)) :
    sweepList cutoff l =
      ((l.filter (fun kv => expiredAt cutoff kv.2)).length,
       l.filter (fun kv => !expiredAt cutoff kv.2)) := by
  induction l with
  | nil => rfl
  | cons hd tl ih =>
    obtain ⟨k, e⟩ := hd
    simp only [sweepList, ih, List.filter_cons]
    by_cases h : expiredAt cutoff e = true
    · simp [h]
    · simp [h]

/-- C7 (retention correctness): whenever the configured retention
days parse to `d` (`d = 90` when `CACHE_RETENTION_DAYS` is unset), the
sweep deletes exactly the entries whose `cached_at` precedes
`now - d` days, returns the count of removed entries, keeps everything
else; in particular under the 90-day horizon an entry with
`cached_at = now - 91` days is removed and one with
`cached_at = now - 1` day is retained. -/
theorem retention_sweep_exact (env : Env) (now : Int)
    (stor : List (String × CachedEntry)) (d : Int)
    (hd : retentionDaysOf env = some d) :
    (cleanupExpiredEntries env now stor).1 =
      (stor.filter (fun kv =>
        decide (kv.2.cached_at < now - d * (24 * 60 * 60 * 1000)))).length ∧
    (cleanupExpiredEntries env now stor).2 =
      stor.filter (fun kv =>
        !decide (kv.2.cached_at < now - d * (24 * 60 * 60 * 1000))) ∧
    (env.CACHE_RETENTION_DAYS = none → d = 90) ∧
    (d = 90 → ∀ k (e : CachedEntry), e.cached_at = now - 91 * (24 * 60 * 60 * 1000) →
      (k, e) ∈ stor → (k, e) ∉ (cleanupExpiredEntries env now stor).2) ∧
    (d = 90 → ∀ k (e : CachedEntry), e.cached_at = now - 1 * (24 * 60 * 60 * 1000) →
      (k, e) ∈ stor → (k, e) ∈ (cleanupExpiredEntries env now stor).2) := by
  have hcut : cutoffOf env now = some (now - d * (24 * 60 * 60 * 1000)) := by
    unfold cutoffOf
    rw [hd]
    rfl
  have hclean : cleanupExpiredEntries env now stor =
      ((stor.filter (fun kv =>
        decide (kv.2.cached_at < now - d * (24 * 60 * 60 * 1000)))).length,
       stor.filter (fun kv =>
        !decide (kv.2.cached_at < now - d * (24 * 60 * 60 * 1000)))) := by
    unfold cleanupExpiredEntries
    rw [hcut, sweepList_eq_filter]
    simp only [expiredAt]
  refine ⟨by rw [hclean], by rw [hclean], ?_, ?_, ?_⟩
  · intro hnone
    rw [show retentionDaysOf env = some 90 by
      unfold retentionDaysOf
      rw [hnone]
      decide] at hd
    exact (Option.some_injective _ hd).symm
  · intro h90 k e hage hmem
    subst h90
    rw [hclean]
    intro hmem'
    rw [List.mem_filter] at hmem'
    have := hmem'.2
    rw [hage] at this
    simp only [Bool.not_eq_true', decide_eq_false_iff_not] at this
    omega
  · intro h90 k e hage hmem
    subst h90
    rw [hclean]
    rw [List.mem_filter]
    refine ⟨hmem, ?_⟩
    rw [hage]
    simp only [Bool.not_eq_true', decide_eq_false_iff_not]
    omega

/-- Entry aged 91 days (relative to `now = 0`) for the C7 witness. -/
def oldEntry : CachedEntry := ⟨"c", "m", 1, "x", -91 * (24 * 60 * 60 * 1000), 0, 0⟩

/-- Entry aged 1 day (relative to `now = 0`) for the C7 witness. -/
def youngEntry : CachedEntry := ⟨"c", "m", 1, "y", -1 * (24 * 60 * 60 * 1000), 0, 0⟩

/-- Witness for C7: default horizon (unset `CACHE_RETENTION_DAYS`),
a 91-day-old entry and a 1-day-old entry at `now = 0`. -/
theorem retention_sweep_exact_witness :
    retentionDaysOf envEx = some 90 ∧
    (cleanupExpiredEntries envEx 0 [("x", oldEntry), ("y", youngEntry)]).1 = 1 ∧
    ("x", oldEntry) ∉ (cleanupExpiredEntries envEx 0 [("x", oldEntry), ("y", youngEntry)]).2 ∧
    ("y", youngEntry) ∈ (cleanupExpiredEntries envEx 0 [("x", oldEntry), ("y", youngEntry)]).2 := by
  have h := retention_sweep_exact envEx 0 [("x", oldEntry), ("y", youngEntry)] 90 (by decide)
  refine ⟨by decide, ?_, ?_, ?_⟩
  · rw [h.1]
    decide
  · exact h.2.2.2.1 rfl "x" oldEntry (by decide) (by decide)
  · exact h.2.2.2.2 rfl "y" youngEntry (by decide) (by decide)

/-! ## C8: the signer contract -/

theorem utf8EncodeChar_ne_nil (c : Char) : utf8EncodeChar c ≠ [] := by
  simp only [utf8EncodeChar]
  split_ifs <;> simp

theorem utf8Encode_eq_nil_iff (s : String) : utf8Encode s = [] ↔ s = "" := by
  constructor
  · intro h
    unfold utf8Encode at h
    cases hs : s.data with
    | nil =>
      apply String.ext
      rw [hs]
    | cons c cs =>
      exfalso
      rw [hs] at h
      simp only [List.map_cons, List.flatten_cons, List.append_eq_nil] at h
      exact utf8EncodeChar_ne_nil c h.1
  · intro h
    subst h
    rfl

/-- C8 (signer contract): `generateSignature` is a pure function of
its three inputs (identical inputs always yield the same result); it
fails exactly when the secret is empty (the WebCrypto HMAC key import
rejects empty key data), and for every non-empty secret it succeeds
with the hex-encoded HMAC-SHA256 keyed by the secret over
`` `${fingerprint}:${content}` ``. -/
theorem signer_contract (requestHash content secret : String) :
    (secret = "" → ∃ e, generateSignature requestHash content secret = .error e) ∧
    (secret ≠ "" → generateSignature requestHash content secret =
      .ok (toHexString (hmacSha256 (utf8Encode secret)
        (utf8Encode (requestHash ++ ":" ++ content))))) := by
  constructor
  · intro h
    subst h
    exact ⟨_, rfl⟩
  · intro h
    have hne : utf8Encode secret ≠ [] := fun hh => h ((utf8Encode_eq_nil_iff _).mp hh)
    have hlen : ¬ (utf8Encode secret).length = 0 := by
      simpa [List.length_eq_zero] using hne
    simp only [generateSignature, importHmacKey]
    rw [if_neg hlen]
    rfl

/-- Witness for C8 at a concrete non-empty secret. -/
theorem signer_contract_witness :
    ("k" : String) ≠ "" ∧
    generateSignature "f" "c" "k" =
      .ok (toHexString (hmacSha256 (utf8Encode "k") (utf8Encode ("f" ++ ":" ++ "c")))) :=
  ⟨by decide, (signer_contract "f" "c" "k").2 (by decide)⟩
